import Mathlib

/-!
A verification development for the markdown renderer of this repository
(src/utils/markdownRenderer.ts).  The renderer is a pure function from a
string to a markup string: it splits the input on newline characters,
classifies each line with anchored regular expressions (heading, blockquote,
horizontal rule, unordered list item, ordered list item, paragraph, blank),
and applies a fixed chain of global regex substitutions (escaping, bold,
italic, strikethrough, inline code, link) to the text of each block.

The embedding below works over `List Char`.  Each JavaScript regular
expression is embedded as an explicit Lean function; a comment at each
definition records the original pattern and how the function realises its
matching semantics (leftmost match, greedy or lazy quantifiers, alternation
order, one-character advance on failure, continuation after the end of a
match for global replacement).  The single-pass block loop of the source is
embedded with an explicit fuel argument equal to the number of lines: every
iteration of the source while-loop consumes at least one line and the index
only moves forward, so that fuel is never exhausted.  The output string is
assembled from the list of chunks appended to the accumulator variable of
the source, joined at the end.
-/

set_option maxRecDepth 100000

namespace MarkdownRenderer

/-- The character class of the JavaScript `\s` escape (and of
`String.prototype.trim`): space, tab, line feed, carriage return, vertical
tab, form feed, NBSP, and the Unicode space separators used by JavaScript. -/
def isJsWs (c : Char) : Bool :=
  c == ' ' || c == '\t' || c == '\n' || c == '\r' || c == '\x0b' || c == '\x0c' ||
  c == '\u00A0' || c == '\u1680' || (decide ('\u2000' ≤ c) && decide (c ≤ '\u200A')) ||
  c == '\u2028' || c == '\u2029' || c == '\u202F' || c == '\u205F' || c == '\u3000' ||
  c == '\uFEFF'

/-- The character class `[-*_]` of the horizontal-rule pattern. -/
def isRuleChar (c : Char) : Bool := c == '-' || c == '*' || c == '_'

/-- The backtick character (written by code point to keep source plain). -/
def btChar : Char := '\x60'

/-- JavaScript `String.prototype.trim`: strip leading and trailing
whitespace. -/
def trimL (s : List Char) : List Char :=
  ((s.dropWhile isJsWs).reverse.dropWhile isJsWs).reverse

/-- JavaScript `text.split('\n')`: splitting on a one-character separator.
The result always has one more element than the number of newline
characters; in particular it is never empty, and splitting the empty string
gives one empty piece. -/
def splitLines : List Char → List (List Char)
  | [] => [[]]
  | c :: rest =>
    if c == '\n' then [] :: splitLines rest
    else
      match splitLines rest with
      | l :: ls => (c :: l) :: ls
      | [] => [[c]]

/-- JavaScript `s.replace(/c/g, rep)` for a single character `c`: every
occurrence is replaced, and replacement text is not rescanned (the scan
continues after the match). -/
def replaceAllChar (c : Char) (rep : List Char) : List Char → List Char
  | [] => []
  | d :: rest => (if d == c then rep else [d]) ++ replaceAllChar c rep rest

/-- Boolean list-prefix test, used to locate pattern occurrences. -/
def startsWithL : List Char → List Char → Bool
  | [], _ => true
  | _ :: _, [] => false
  | a :: ps, b :: ss => a == b && startsWithL ps ss

/-- Split a string at the first occurrence of a nonempty `delim`:
`some (before, after)` where `before` is the (possibly empty) text before
the first occurrence and `after` the text after it, or `none` when `delim`
does not occur.  This realises a lazy `(.*?)` capture followed by a literal
delimiter: the lazy quantifier stops at the first position where the
delimiter matches. -/
def splitFirst (delim : List Char) : List Char → Option (List Char × List Char)
  | [] => none
  | c :: rest =>
    if startsWithL delim (c :: rest) then some ([], (c :: rest).drop delim.length)
    else
      match splitFirst delim rest with
      | some (pre, post) => some (c :: pre, post)
      | none => none

/- Replacement templates of the inline substitutions, as in the source. -/

def strongOpen : List Char := "<strong class=\"font-semibold text-white\">".data
def strongClose : List Char := "</strong>".data
def emOpen : List Char := "<em>".data
def emClose : List Char := "</em>".data
def delOpen : List Char := "<del>".data
def delClose : List Char := "</del>".data
def codeOpen : List Char :=
  "<code class=\"font-code bg-black/30 px-1 py-0.5 rounded-sm text-sm text-cyan-300\">".data
def codeClose : List Char := "</code>".data
def aOpen : List Char := "<a href=\"".data
def aMid : List Char :=
  "\" target=\"_blank\" rel=\"noopener noreferrer\" class=\"text-cyan-400 hover:underline\">".data
def aClose : List Char := "</a>".data

def strongTpl (content : List Char) : List Char := strongOpen ++ content ++ strongClose
def emTpl (content : List Char) : List Char := emOpen ++ content ++ emClose
def delTpl (content : List Char) : List Char := delOpen ++ content ++ delClose
def codeTpl (content : List Char) : List Char := codeOpen ++ content ++ codeClose
def aTpl (label url : List Char) : List Char := aOpen ++ url ++ aMid ++ label ++ aClose

/-- `s.replace(/(\*\*|__)(.*?)\1/g, ...)`.  At each position: if the next
two characters are `**` or `__`, the lazy content runs to the first later
occurrence of the same delimiter; if there is none the engine advances one
character (past the first delimiter character) and retries.  The fuel
argument bounds the number of scan steps; each step consumes at least one
character, so fuel equal to the length of the input is always sufficient
(when fuel runs out the rest is passed through unchanged, which can only
happen on the empty remainder). -/
def replaceBoldF : Nat → List Char → List Char
  | 0, s => s
  | _ + 1, [] => []
  | f + 1, c :: rest =>
    if (c == '*' || c == '_') && rest.head? == some c then
      match splitFirst [c, c] rest.tail with
      | some (content, after) => strongTpl content ++ replaceBoldF f after
      | none => c :: replaceBoldF f rest
    else c :: replaceBoldF f rest

/-- `s.replace(/(\*|_)(.*?)\1/g, ...)`: one-character delimiter, lazy
(possibly empty) content up to the first later occurrence of the same
character. -/
def replaceItalicF : Nat → List Char → List Char
  | 0, s => s
  | _ + 1, [] => []
  | f + 1, c :: rest =>
    if c == '*' || c == '_' then
      match splitFirst [c] rest with
      | some (content, after) => emTpl content ++ replaceItalicF f after
      | none => c :: replaceItalicF f rest
    else c :: replaceItalicF f rest

/-- `s.replace(/~~(.*?)~~/g, ...)`. -/
def replaceDelF : Nat → List Char → List Char
  | 0, s => s
  | _ + 1, [] => []
  | f + 1, c :: rest =>
    if c == '~' && rest.head? == some '~' then
      match splitFirst ['~', '~'] rest.tail with
      | some (content, after) => delTpl content ++ replaceDelF f after
      | none => c :: replaceDelF f rest
    else c :: replaceDelF f rest

/-- The backtick rule: the content class `[^` + backtick + `]+?` is lazy and
nonempty, so the closing delimiter is the first later backtick, provided at
least one character lies between; if the very next character is a backtick
the match fails at this position and the scan advances one character. -/
def replaceCodeF : Nat → List Char → List Char
  | 0, s => s
  | _ + 1, [] => []
  | f + 1, c :: rest =>
    if c == btChar then
      match splitFirst [btChar] rest with
      | some (content, after) =>
        if content = [] then c :: replaceCodeF f rest
        else codeTpl content ++ replaceCodeF f after
      | none => c :: replaceCodeF f rest
    else c :: replaceCodeF f rest

/-- `s.replace(/\[(.*?)\]\((.*?)\)/g, ...)`: the lazy label runs to the
first occurrence of the two-character sequence `](`, and the lazy url to
the first `)` after it.  When the first `](` is not followed by any `)`,
no later `](` can be either, so the match fails at this position. -/
def replaceLinkF : Nat → List Char → List Char
  | 0, s => s
  | _ + 1, [] => []
  | f + 1, c :: rest =>
    if c == '[' then
      match splitFirst [']', '('] rest with
      | some (label, rest2) =>
        match splitFirst [')'] rest2 with
        | some (url, after) => aTpl label url ++ replaceLinkF f after
        | none => c :: replaceLinkF f rest
      | none => c :: replaceLinkF f rest
    else c :: replaceLinkF f rest

/-- The first three substitutions of `applyInlineFormatting`: escape `&`,
then `<`, then `>`, in that order. -/
def escapeHtml (line : List Char) : List Char :=
  replaceAllChar '>' "&gt;".data
    (replaceAllChar '<' "&lt;".data
      (replaceAllChar '&' "&amp;".data line))

/-- The five markup substitutions of `applyInlineFormatting`, applied after
escaping: bold, italic, strikethrough, inline code, link, in source order.
Each global replacement is run with fuel equal to the length of its own
input, which bounds its scan. -/
def inlineSubsts (s : List Char) : List Char :=
  let s4 := replaceBoldF s.length s
  let s5 := replaceItalicF s4.length s4
  let s6 := replaceDelF s5.length s5
  let s7 := replaceCodeF s6.length s6
  replaceLinkF s7.length s7

/-- `applyInlineFormatting` from the source: the escaping chain followed by
the five markup substitutions. -/
def applyInlineFormatting (line : List Char) : List Char :=
  inlineSubsts (escapeHtml line)

/-- `line.match(/^(#{1,3})\s+(.*)/)`.  Writing `n` for the length of the
maximal leading run of `#`: the greedy bounded quantifier with backtracking
matches exactly when `1 ≤ n ≤ 3` and the character after the run is
whitespace (for any shorter split the next character is `#`, which is not
whitespace).  The greedy `\s+` then absorbs the whole whitespace run, so the
captured text is the remainder with leading whitespace stripped. -/
def headingMatch (line : List Char) : Option (Nat × List Char) :=
  let n := (line.takeWhile (· == '#')).length
  let rest := line.dropWhile (· == '#')
  if 1 ≤ n ∧ n ≤ 3 then
    match rest.head? with
    | some c => if isJsWs c then some (n, rest.dropWhile isJsWs) else none
    | none => none
  else none

/-- The optional `\s?` after `>` in the blockquote pattern: strip one
leading whitespace character when present. -/
def stripOptWs : List Char → List Char
  | [] => []
  | c :: cs => if isJsWs c then cs else c :: cs

/-- `line.match(/^>\s?(.*)/)`: any line starting with `>`; the capture is
the rest with one optional whitespace character stripped. -/
def blockquoteMatch : List Char → Option (List Char)
  | [] => none
  | c :: rest => if c == '>' then some (stripOptWs rest) else none

/-- `line.match(/^[-*_]{3,}$/)`: the whole line consists of at least three
characters from the class. -/
def hrMatch (line : List Char) : Bool :=
  decide (3 ≤ line.length) && line.all isRuleChar

/-- `line.match(/^(\s*)[\-*]\s+(.*)/)`.  The greedy `(\s*)` absorbs the
maximal leading whitespace run (backtracking cannot help, since the marker
class contains no whitespace); then one marker character, then at least one
whitespace character absorbed greedily, then the captured content. -/
def ulMatch (line : List Char) : Option (List Char) :=
  match line.dropWhile isJsWs with
  | [] => none
  | c :: cs =>
    if c == '-' || c == '*' then
      match cs.head? with
      | some d => if isJsWs d then some (cs.dropWhile isJsWs) else none
      | none => none
    else none

/-- `line.match(/^(\s*)\d+\.\s+(.*)/)`: as `ulMatch` with a nonempty greedy
digit run and a literal dot in place of the marker. -/
def olMatch (line : List Char) : Option (List Char) :=
  let rest := line.dropWhile isJsWs
  if (rest.takeWhile Char.isDigit) = [] then none
  else
    match rest.dropWhile Char.isDigit with
    | [] => none
    | c :: cs =>
      if c == '.' then
        match cs.head? with
        | some d => if isJsWs d then some (cs.dropWhile isJsWs) else none
        | none => none
      else none

/-- The paragraph-continuation break test of the source:
`nextLine.trim() === ''` or
`nextLine.match(/^(#{1,3}\s+.*|>\s?.*|[-*_]{3,}|(\s*)[\-*]\s+.*|(\s*)\d+\.\s+.*)/)`.
The first, second, fourth and fifth alternatives match exactly when the
corresponding block patterns do (their trailing `.*` is vacuous), but the
third alternative has no end anchor: it matches any line that merely begins
with three characters of the rule class. -/
def paraBreak (line : List Char) : Bool :=
  line.all isJsWs || (headingMatch line).isSome || (blockquoteMatch line).isSome ||
  decide (3 ≤ (line.takeWhile isRuleChar).length) ||
  (ulMatch line).isSome || (olMatch line).isSome

/-- `lines[i+1].startsWith('>')`. -/
def startsGtB (l : List Char) : Bool := l.head? == some '>'

/-- The inner while-loop of the blockquote branch: consume following lines
while they start with `>`; each consumed line contributes
`applyInlineFormatting(lines[i].substring(1).trim())`.  Returns the
collected contents and the remaining lines. -/
def blockquoteCollect : List (List Char) → List (List Char) × List (List Char)
  | [] => ([], [])
  | l :: rest =>
    if startsGtB l then
      let p := blockquoteCollect rest
      (applyInlineFormatting (trimL l.tail) :: p.1, p.2)
    else ([], l :: rest)

/-- The inner while-loop of the paragraph branch: consume following lines
while they are neither blank nor matched by the combined break pattern. -/
def paraCollect : List (List Char) → List (List Char) × List (List Char)
  | [] => ([], [])
  | l :: rest =>
    if paraBreak l then ([], l :: rest)
    else
      let p := paraCollect rest
      (l :: p.1, p.2)

/-- `parts.join('\n')`. -/
def joinNL : List (List Char) → List Char
  | [] => []
  | [x] => x
  | x :: xs => x ++ '\n' :: joinNL xs

/-- The two possible values of the `inList` variable. -/
inductive ListKind
  | ul
  | ol
deriving DecidableEq

/-- `closeListIfNeeded`: the chunk it appends to the accumulator, as a
function of the current `inList` state (the state afterwards is `none`). -/
def closeListChunks : Option ListKind → List (List Char)
  | none => []
  | some ListKind.ul => ["</ul>".data]
  | some ListKind.ol => ["</ol>".data]

/-- The size class of a heading: level 1, level 2, otherwise. -/
def headingSize (level : Nat) : List Char :=
  if level = 1 then "text-xl mt-5 mb-3".data
  else if level = 2 then "text-lg mt-4 mb-2".data
  else "text-base mt-3 mb-1".data

/-- The opening text of a heading element. -/
def headingOpen (level : Nat) : List Char :=
  "<h".data ++ (toString level).data ++ " class=\"".data ++ headingSize level ++
    " font-semibold text-white\">".data

/-- The closing text of a heading element. -/
def headingClose (level : Nat) : List Char :=
  "</h".data ++ (toString level).data ++ ">".data

/-- The heading element chunk. -/
def headingChunk (level : Nat) (content : List Char) : List Char :=
  headingOpen level ++ content ++ headingClose level

/-- The blockquote element chunk. -/
def blockquoteChunk (content : List Char) : List Char :=
  ("<blockquote class=\"border-l-4 border-cyan-500/50 pl-4 my-3 text-gray-300 italic " ++
    "bg-black/25 py-2 whitespace-pre-wrap\">").data ++ content ++ "</blockquote>".data

/-- The horizontal-rule chunk. -/
def hrChunk : List Char := "<hr class=\"my-4 border-gray-600\"/>".data

/-- The unordered-list opening chunk. -/
def ulOpenChunk : List Char := "<ul class=\"list-disc list-outside space-y-2 my-3 pl-6\">".data

/-- The ordered-list opening chunk. -/
def olOpenChunk : List Char := "<ol class=\"list-decimal list-outside space-y-2 my-3 pl-6\">".data

/-- A list-item chunk. -/
def liChunk (content : List Char) : List Char := "<li>".data ++ content ++ "</li>".data

/-- A paragraph chunk. -/
def pChunk (content : List Char) : List Char :=
  "<p class=\"my-2 leading-relaxed\">".data ++ content ++ "</p>".data

/-- The main while-loop of `renderSimpleMarkdown`, returning the list of
chunks appended to `html`, in order.  Branches appear in source order:
heading, blockquote, horizontal rule, unordered item, ordered item, then
non-blank lines start a paragraph and blank lines only close an open list.
The fuel argument bounds the number of iterations; every iteration consumes
at least one line, so fuel equal to the number of lines is sufficient, and
on exhaustion (which then never occurs on a nonempty list) the still-open
list is closed as at the end of input. -/
def blockLoop : Nat → List (List Char) → Option ListKind → List (List Char)
  | _, [], inList => closeListChunks inList
  | 0, _ :: _, inList => closeListChunks inList
  | f + 1, line :: rest, inList =>
    match headingMatch line with
    | some (level, text) =>
      closeListChunks inList ++ [headingChunk level (applyInlineFormatting text)] ++
        blockLoop f rest none
    | none =>
      match blockquoteMatch line with
      | some q =>
        let p := blockquoteCollect rest
        closeListChunks inList ++
          [blockquoteChunk (joinNL (applyInlineFormatting q :: p.1))] ++ blockLoop f p.2 none
      | none =>
        if hrMatch line then
          closeListChunks inList ++ [hrChunk] ++ blockLoop f rest none
        else
          match ulMatch line with
          | some item =>
            (if inList = some ListKind.ul then [] else closeListChunks inList ++ [ulOpenChunk]) ++
              [liChunk (applyInlineFormatting item)] ++ blockLoop f rest (some ListKind.ul)
          | none =>
            match olMatch line with
            | some item =>
              (if inList = some ListKind.ol then [] else closeListChunks inList ++ [olOpenChunk]) ++
                [liChunk (applyInlineFormatting item)] ++ blockLoop f rest (some ListKind.ol)
            | none =>
              if line.all isJsWs then
                closeListChunks inList ++ blockLoop f rest none
              else
                let p := paraCollect rest
                closeListChunks inList ++
                  [pChunk (applyInlineFormatting (joinNL (line :: p.1)))] ++ blockLoop f p.2 none

/-- The chunk sequence produced for an input: empty input short-circuits
(`if (!text) return ''`), otherwise the lines are scanned once. -/
def renderChunks (text : List Char) : List (List Char) :=
  if text = [] then []
  else blockLoop (splitLines text).length (splitLines text) none

/-- Concatenation of the chunks, in order: the final value of `html`. -/
def concatChunks : List (List Char) → List Char
  | [] => []
  | c :: cs => c ++ concatChunks cs

/-- `renderSimpleMarkdown` over character lists. -/
def renderL (text : List Char) : List Char := concatChunks (renderChunks text)

/-- `renderSimpleMarkdown` from the source, over strings. -/
def renderSimpleMarkdown (text : String) : String := String.mk (renderL text.data)

/-- The horizontal-rule line predicate as the specification words it: after
discarding whitespace, the line consists of three or more repetitions of one
single character drawn from the rule class.  Stated for comparison with the
`hrMatch` predicate embedded from the code. -/
def specSameCharRule (line : List Char) : Bool :=
  let core := line.filter (fun c => !(isJsWs c))
  decide (3 ≤ core.length) &&
  (core.all (· == '-') || core.all (· == '*') || core.all (· == '_'))

/-- The per-character expansion realised by the escaping chain: `&` to its
entity first, then `<`, then `>`, all other characters unchanged. -/
def escChar (c : Char) : List Char :=
  if c = '&' then "&amp;".data
  else if c = '<' then "&lt;".data
  else if c = '>' then "&gt;".data
  else [c]

/-- Character-by-character expansion of a string by `escChar`. -/
def escExpand : List Char → List Char
  | [] => []
  | c :: rest => escChar c ++ escExpand rest

/-- Checks that every ampersand in a string begins one of the three
entities introduced by escaping. -/
def ampOk : List Char → Bool
  | [] => true
  | c :: rest =>
    (if c = '&' then
      startsWithL "amp;".data rest || startsWithL "lt;".data rest ||
        startsWithL "gt;".data rest
    else true) && ampOk rest

/-- Three-valued prefix comparison: `some true` when the first list is a
prefix of the second, `some false` when they disagree at some position both
reach, `none` when the second runs out first while agreeing.  Used to
evaluate prefix tests against a chunk whose leading text is closed but whose
tail is abstract. -/
def cmpPrefix : List Char → List Char → Option Bool
  | [], _ => some true
  | _ :: _, [] => none
  | a :: ps, b :: ss => if a == b then cmpPrefix ps ss else some false

/-- One transition of the list well-formedness scanner over the emitted
chunk sequence: at most one list may be open at a time; a list opening
chunk requires no list open; a closing tag requires the matching list open;
a list item requires some list open; every other block chunk (heading,
paragraph, blockquote, rule) requires no list open.  The result is the new
open-list state, or `none` for a violation. -/
def chunkStep (st : Option ListKind) (c : List Char) : Option (Option ListKind) :=
  if startsWithL "<ul ".data c then
    if st = none then some (some ListKind.ul) else none
  else if c = "</ul>".data then
    if st = some ListKind.ul then some none else none
  else if startsWithL "<ol ".data c then
    if st = none then some (some ListKind.ol) else none
  else if c = "</ol>".data then
    if st = some ListKind.ol then some none else none
  else if startsWithL "<li>".data c then
    if st = none then none else some st
  else if startsWithL "<h1".data c || startsWithL "<h2".data c || startsWithL "<h3".data c ||
      startsWithL "<hr".data c || startsWithL "<p ".data c || startsWithL "<blockquote".data c then
    if st = none then some none else none
  else none

/-- Run the scanner over a chunk sequence from a given open-list state,
returning the final state, or `none` on a violation. -/
def chunksRun : Option ListKind → List (List Char) → Option (Option ListKind)
  | st, [] => some st
  | st, c :: cs =>
    match chunkStep st c with
    | some st2 => chunksRun st2 cs
    | none => none

/-- Claim C1 counterexample: in the input wrapping `**x**` in single
backticks, the bold substitution is applied to the text between the matching
backticks (the strong element appears inside the code element); the output
is not the code span holding the literal text. -/
theorem claimC1_counterexample :
    renderSimpleMarkdown "`**x**`" =
      "<p class=\"my-2 leading-relaxed\"><code class=\"font-code bg-black/30 px-1 py-0.5 rounded-sm text-sm text-cyan-300\"><strong class=\"font-semibold text-white\">x</strong></code></p>" ∧
    renderSimpleMarkdown "`**x**`" ≠
      "<p class=\"my-2 leading-relaxed\"><code class=\"font-code bg-black/30 px-1 py-0.5 rounded-sm text-sm text-cyan-300\">**x**</code></p>" := by
  constructor
  · decide
  · decide

/-- Claim C2 counterexample: the line `-*-` mixes the three rule characters,
so it is not three repetitions of one single character, yet the renderer
emits a horizontal rule for it. -/
theorem claimC2_counterexample :
    renderSimpleMarkdown "-*-" = "<hr class=\"my-4 border-gray-600\"/>" ∧
    specSameCharRule "-*-".data = false := by
  constructor
  · decide
  · decide

/-- Claim C3 counterexample: the line `---abc` is non-blank and matches none
of the heading, blockquote, horizontal-rule or list block patterns, so by
the claim it would be absorbed into the preceding paragraph; the renderer
instead terminates the paragraph there, because the rule alternative of the
continuation lookahead has no end anchor. -/
theorem claimC3_counterexample :
    renderSimpleMarkdown "hello\n---abc" =
      "<p class=\"my-2 leading-relaxed\">hello</p><p class=\"my-2 leading-relaxed\">---abc</p>" ∧
    renderSimpleMarkdown "hello\n---abc" ≠
      "<p class=\"my-2 leading-relaxed\">hello\n---abc</p>" := by
  constructor
  · decide
  · decide

/-- Claim C4 counterexample: for the input consisting of a single unmatched
`**`, the two delimiter characters do not appear literally in the output;
the italic rule consumes them as an empty emphasis element. -/
theorem claimC4_counterexample :
    renderSimpleMarkdown "**" = "<p class=\"my-2 leading-relaxed\"><em></em></p>" ∧
    renderSimpleMarkdown "**" ≠ "<p class=\"my-2 leading-relaxed\">**</p>" := by
  constructor
  · decide
  · decide

/-- Claim C5 counterexample: for a single-line blockquote whose text carries
a trailing space, the consumed content keeps that trailing space (the first
blockquote line is only stripped of the marker and one optional whitespace
character, not trimmed). -/
theorem claimC5_counterexample :
    renderSimpleMarkdown "> a " =
      "<blockquote class=\"border-l-4 border-cyan-500/50 pl-4 my-3 text-gray-300 italic bg-black/25 py-2 whitespace-pre-wrap\">a </blockquote>" ∧
    renderSimpleMarkdown "> a " ≠
      "<blockquote class=\"border-l-4 border-cyan-500/50 pl-4 my-3 text-gray-300 italic bg-black/25 py-2 whitespace-pre-wrap\">a</blockquote>" := by
  constructor
  · decide
  · decide

/-- Claim C4 (amended): the renderer never fails on unmatched delimiters;
a delimiter that no substitution can consume (a lone `~~`, a single `*`, a
lone backtick, a `[label](` without closing parenthesis) appears literally
in the output with no formatting element produced; however an unmatched
`**` or `__` is consumed by the later single-character italic rule as an
empty emphasis element. -/
theorem claimC4 :
    renderSimpleMarkdown "~~" = "<p class=\"my-2 leading-relaxed\">~~</p>" ∧
    renderSimpleMarkdown "*" = "<p class=\"my-2 leading-relaxed\">*</p>" ∧
    renderSimpleMarkdown "\x60" = "<p class=\"my-2 leading-relaxed\">\x60</p>" ∧
    renderSimpleMarkdown "[x](" = "<p class=\"my-2 leading-relaxed\">[x](</p>" ∧
    renderSimpleMarkdown "**" = "<p class=\"my-2 leading-relaxed\"><em></em></p>" ∧
    renderSimpleMarkdown "__" = "<p class=\"my-2 leading-relaxed\"><em></em></p>" := by
  refine ⟨by decide, by decide, by decide, by decide, by decide, by decide⟩

/-! ### Prefix-comparison lemmas

These evaluate the scanner tests against a chunk whose leading text is
closed while the embedded content is abstract. -/

lemma startsWithL_refl (l : List Char) : startsWithL l l = true := by
  induction l with
  | nil => rfl
  | cons a t ih => simp [startsWithL, ih]

lemma startsWithL_append_eq (p q r : List Char) (b : Bool) (h : cmpPrefix p q = some b) :
    startsWithL p (q ++ r) = b := by
  induction p generalizing q with
  | nil =>
    simp only [cmpPrefix, Option.some.injEq] at h
    simp [startsWithL, ← h]
  | cons a ps ih =>
    cases q with
    | nil => simp [cmpPrefix] at h
    | cons c qs =>
      simp only [cmpPrefix] at h
      by_cases hac : (a == c) = true
      · rw [if_pos hac] at h
        simp [startsWithL, hac, ih qs h]
      · rw [Bool.not_eq_true] at hac
        rw [if_neg (by simp [hac])] at h
        simp only [Option.some.injEq] at h
        simp [startsWithL, hac, ← h]

lemma ne_append_of_cmpPrefix_false (q A r : List Char) (h : cmpPrefix q A = some false) :
    A ++ r ≠ q := by
  intro he
  have h1 : startsWithL q (A ++ r) = false := startsWithL_append_eq q A r false h
  rw [he, startsWithL_refl] at h1
  simp at h1

/-! ### Evaluation of the scanner on each chunk shape -/

lemma chunkStep_block (st : Option ListKind) (A r : List Char)
    (h1 : cmpPrefix "<ul ".data A = some false)
    (h2 : cmpPrefix "</ul>".data A = some false)
    (h3 : cmpPrefix "<ol ".data A = some false)
    (h4 : cmpPrefix "</ol>".data A = some false)
    (h5 : cmpPrefix "<li>".data A = some false)
    (h6 : cmpPrefix "<h1".data A = some true ∨ cmpPrefix "<h2".data A = some true ∨
      cmpPrefix "<h3".data A = some true ∨ cmpPrefix "<hr".data A = some true ∨
      cmpPrefix "<p ".data A = some true ∨ cmpPrefix "<blockquote".data A = some true) :
    chunkStep st (A ++ r) = if st = none then some none else none := by
  unfold chunkStep
  rw [startsWithL_append_eq "<ul ".data A r false h1,
    if_neg (ne_append_of_cmpPrefix_false "</ul>".data A r h2),
    startsWithL_append_eq "<ol ".data A r false h3,
    if_neg (ne_append_of_cmpPrefix_false "</ol>".data A r h4),
    startsWithL_append_eq "<li>".data A r false h5]
  rcases h6 with h6 | h6 | h6 | h6 | h6 | h6 <;>
    rw [startsWithL_append_eq _ A r true h6] <;> simp

lemma chunkStep_item (st : Option ListKind) (A r : List Char)
    (h1 : cmpPrefix "<ul ".data A = some false)
    (h2 : cmpPrefix "</ul>".data A = some false)
    (h3 : cmpPrefix "<ol ".data A = some false)
    (h4 : cmpPrefix "</ol>".data A = some false)
    (h5 : cmpPrefix "<li>".data A = some true) :
    chunkStep st (A ++ r) = if st = none then none else some st := by
  unfold chunkStep
  rw [startsWithL_append_eq "<ul ".data A r false h1,
    if_neg (ne_append_of_cmpPrefix_false "</ul>".data A r h2),
    startsWithL_append_eq "<ol ".data A r false h3,
    if_neg (ne_append_of_cmpPrefix_false "</ol>".data A r h4),
    startsWithL_append_eq "<li>".data A r true h5]
  simp

lemma chunkStep_pChunk (st : Option ListKind) (content : List Char) :
    chunkStep st (pChunk content) = if st = none then some none else none := by
  rw [pChunk, List.append_assoc]
  exact chunkStep_block st _ _ (by decide) (by decide) (by decide) (by decide) (by decide)
    (Or.inr (Or.inr (Or.inr (Or.inr (Or.inl (by decide))))))

lemma chunkStep_blockquoteChunk (st : Option ListKind) (content : List Char) :
    chunkStep st (blockquoteChunk content) = if st = none then some none else none := by
  rw [blockquoteChunk, List.append_assoc]
  exact chunkStep_block st _ _ (by decide) (by decide) (by decide) (by decide) (by decide)
    (Or.inr (Or.inr (Or.inr (Or.inr (Or.inr (by decide))))))

lemma chunkStep_liChunk (st : Option ListKind) (content : List Char) :
    chunkStep st (liChunk content) = if st = none then none else some st := by
  rw [liChunk, List.append_assoc]
  exact chunkStep_item st _ _ (by decide) (by decide) (by decide) (by decide) (by decide)

lemma headingOpen_one : headingOpen 1 = "<h1 class=\"text-xl mt-5 mb-3 font-semibold text-white\">".data := by
  decide

lemma headingOpen_two : headingOpen 2 = "<h2 class=\"text-lg mt-4 mb-2 font-semibold text-white\">".data := by
  decide

lemma headingOpen_three : headingOpen 3 = "<h3 class=\"text-base mt-3 mb-1 font-semibold text-white\">".data := by
  decide

lemma chunkStep_headingChunk (st : Option ListKind) (lvl : Nat) (content : List Char)
    (hl : 1 ≤ lvl) (hu : lvl ≤ 3) :
    chunkStep st (headingChunk lvl content) = if st = none then some none else none := by
  have h3 : lvl = 1 ∨ lvl = 2 ∨ lvl = 3 := by omega
  rcases h3 with h | h | h <;> subst h
  · rw [headingChunk, headingOpen_one, List.append_assoc]
    exact chunkStep_block st _ _ (by decide) (by decide) (by decide) (by decide) (by decide)
      (Or.inl (by decide))
  · rw [headingChunk, headingOpen_two, List.append_assoc]
    exact chunkStep_block st _ _ (by decide) (by decide) (by decide) (by decide) (by decide)
      (Or.inr (Or.inl (by decide)))
  · rw [headingChunk, headingOpen_three, List.append_assoc]
    exact chunkStep_block st _ _ (by decide) (by decide) (by decide) (by decide) (by decide)
      (Or.inr (Or.inr (Or.inl (by decide))))

lemma chunkStep_hrChunk (st : Option ListKind) :
    chunkStep st hrChunk = if st = none then some none else none := by
  rcases st with _ | k
  · decide
  · rcases k <;> decide

lemma chunkStep_ulOpenChunk (st : Option ListKind) :
    chunkStep st ulOpenChunk = if st = none then some (some ListKind.ul) else none := by
  rcases st with _ | k
  · decide
  · rcases k <;> decide

lemma chunkStep_olOpenChunk (st : Option ListKind) :
    chunkStep st olOpenChunk = if st = none then some (some ListKind.ol) else none := by
  rcases st with _ | k
  · decide
  · rcases k <;> decide

/-! ### Scanner runs -/

lemma chunksRun_append (st : Option ListKind) (xs ys : List (List Char)) :
    chunksRun st (xs ++ ys) = (chunksRun st xs).bind fun m => chunksRun m ys := by
  induction xs generalizing st with
  | nil => simp [chunksRun]
  | cons x t ih =>
    rcases h : chunkStep st x with _ | st2 <;> simp [chunksRun, h, ih]

lemma chunksRun_close (st : Option ListKind) :
    chunksRun st (closeListChunks st) = some none := by
  rcases st with _ | k
  · decide
  · rcases k <;> decide

/-! ### Step lemmas for the block loop -/

lemma blockLoop_nil (f : Nat) (st : Option ListKind) :
    blockLoop f [] st = closeListChunks st := by
  cases f <;> rfl

lemma blockLoop_heading (f : Nat) (line : List Char) (rest : List (List Char))
    (st : Option ListKind) (lvl : Nat) (t : List Char)
    (h : headingMatch line = some (lvl, t)) :
    blockLoop (f + 1) (line :: rest) st =
      closeListChunks st ++ [headingChunk lvl (applyInlineFormatting t)] ++
        blockLoop f rest none := by
  simp [blockLoop, h]

lemma blockLoop_quote (f : Nat) (line : List Char) (rest : List (List Char))
    (st : Option ListKind) (q : List Char)
    (h1 : headingMatch line = none) (h2 : blockquoteMatch line = some q) :
    blockLoop (f + 1) (line :: rest) st =
      closeListChunks st ++
        [blockquoteChunk (joinNL (applyInlineFormatting q :: (blockquoteCollect rest).1))] ++
        blockLoop f (blockquoteCollect rest).2 none := by
  simp [blockLoop, h1, h2]

lemma blockLoop_hr (f : Nat) (line : List Char) (rest : List (List Char))
    (st : Option ListKind)
    (h1 : headingMatch line = none) (h2 : blockquoteMatch line = none)
    (h3 : hrMatch line = true) :
    blockLoop (f + 1) (line :: rest) st =
      closeListChunks st ++ [hrChunk] ++ blockLoop f rest none := by
  simp [blockLoop, h1, h2, h3]

lemma blockLoop_ul (f : Nat) (line : List Char) (rest : List (List Char))
    (st : Option ListKind) (item : List Char)
    (h1 : headingMatch line = none) (h2 : blockquoteMatch line = none)
    (h3 : hrMatch line = false) (h4 : ulMatch line = some item) :
    blockLoop (f + 1) (line :: rest) st =
      (if st = some ListKind.ul then [] else closeListChunks st ++ [ulOpenChunk]) ++
        [liChunk (applyInlineFormatting item)] ++ blockLoop f rest (some ListKind.ul) := by
  simp [blockLoop, h1, h2, h3, h4]

lemma blockLoop_ol (f : Nat) (line : List Char) (rest : List (List Char))
    (st : Option ListKind) (item : List Char)
    (h1 : headingMatch line = none) (h2 : blockquoteMatch line = none)
    (h3 : hrMatch line = false) (h4 : ulMatch line = none) (h5 : olMatch line = some item) :
    blockLoop (f + 1) (line :: rest) st =
      (if st = some ListKind.ol then [] else closeListChunks st ++ [olOpenChunk]) ++
        [liChunk (applyInlineFormatting item)] ++ blockLoop f rest (some ListKind.ol) := by
  simp [blockLoop, h1, h2, h3, h4, h5]

lemma blockLoop_blank (f : Nat) (line : List Char) (rest : List (List Char))
    (st : Option ListKind)
    (h1 : headingMatch line = none) (h2 : blockquoteMatch line = none)
    (h3 : hrMatch line = false) (h4 : ulMatch line = none) (h5 : olMatch line = none)
    (h6 : line.all isJsWs = true) :
    blockLoop (f + 1) (line :: rest) st =
      closeListChunks st ++ blockLoop f rest none := by
  simp [blockLoop, h1, h2, h3, h4, h5, h6]

lemma blockLoop_para (f : Nat) (line : List Char) (rest : List (List Char))
    (st : Option ListKind)
    (h1 : headingMatch line = none) (h2 : blockquoteMatch line = none)
    (h3 : hrMatch line = false) (h4 : ulMatch line = none) (h5 : olMatch line = none)
    (h6 : line.all isJsWs = false) :
    blockLoop (f + 1) (line :: rest) st =
      closeListChunks st ++
        [pChunk (applyInlineFormatting (joinNL (line :: (paraCollect rest).1)))] ++
        blockLoop f (paraCollect rest).2 none := by
  simp [blockLoop, h1, h2, h3, h4, h5, h6]

/-! ### The collectors as span operations -/

lemma paraCollect_eq (rest : List (List Char)) :
    paraCollect rest =
      (rest.takeWhile (fun l => !paraBreak l), rest.dropWhile (fun l => !paraBreak l)) := by
  induction rest with
  | nil => rfl
  | cons l t ih =>
    by_cases h : paraBreak l = true
    · simp [paraCollect, h, List.takeWhile_cons, List.dropWhile_cons]
    · simp only [Bool.not_eq_true] at h
      simp [paraCollect, h, ih, List.takeWhile_cons, List.dropWhile_cons]

lemma blockquoteCollect_eq (rest : List (List Char)) :
    blockquoteCollect rest =
      ((rest.takeWhile startsGtB).map (fun l => applyInlineFormatting (trimL l.tail)),
        rest.dropWhile startsGtB) := by
  induction rest with
  | nil => rfl
  | cons l t ih =>
    by_cases h : startsGtB l = true
    · simp [blockquoteCollect, h, ih, List.takeWhile_cons, List.dropWhile_cons]
    · simp only [Bool.not_eq_true] at h
      simp [blockquoteCollect, h, List.takeWhile_cons, List.dropWhile_cons]

/-! ### Facts about the matchers -/

lemma headingMatch_bounds (line : List Char) (lvl : Nat) (t : List Char)
    (h : headingMatch line = some (lvl, t)) : 1 ≤ lvl ∧ lvl ≤ 3 := by
  simp only [headingMatch] at h
  split at h
  next hc =>
    split at h
    next c heq =>
      split at h
      next hw =>
        simp only [Option.some.injEq, Prod.mk.injEq] at h
        omega
      next hw => simp at h
    next => simp at h
  next hc => simp at h

/-! ### The list well-formedness invariant -/

lemma chunksRun_cons (st st2 : Option ListKind) (c : List Char) (cs : List (List Char))
    (hc : chunkStep st c = some st2) :
    chunksRun st (c :: cs) = chunksRun st2 cs := by
  simp [chunksRun, hc]

lemma chunksRun_close_append (st : Option ListKind) (cs : List (List Char)) :
    chunksRun st (closeListChunks st ++ cs) = chunksRun none cs := by
  rw [chunksRun_append, chunksRun_close]
  rfl

lemma blockLoop_zero (lines : List (List Char)) (st : Option ListKind) :
    blockLoop 0 lines st = closeListChunks st := by
  cases lines <;> rfl

lemma blockLoop_wf (f : Nat) :
    ∀ (lines : List (List Char)) (st : Option ListKind),
      chunksRun st (blockLoop f lines st) = some none := by
  induction f with
  | zero =>
    intro lines st
    rw [blockLoop_zero]
    exact chunksRun_close st
  | succ f ih =>
    intro lines st
    cases lines with
    | nil =>
      rw [blockLoop_nil]
      exact chunksRun_close st
    | cons line rest =>
      rcases hh : headingMatch line with _ | ⟨lvl, t⟩
      · rcases hq : blockquoteMatch line with _ | q
        · by_cases hhr : hrMatch line = true
          · rw [blockLoop_hr f line rest st hh hq hhr]
            simp only [List.append_assoc, List.singleton_append, List.cons_append, List.nil_append]
            rw [chunksRun_close_append,
              chunksRun_cons none none _ _ (by simp [chunkStep_hrChunk])]
            exact ih rest none
          · rw [Bool.not_eq_true] at hhr
            rcases hu : ulMatch line with _ | item
            · rcases ho : olMatch line with _ | item
              · by_cases hb : line.all isJsWs = true
                · rw [blockLoop_blank f line rest st hh hq hhr hu ho hb,
                    chunksRun_close_append]
                  exact ih rest none
                · rw [Bool.not_eq_true] at hb
                  rw [blockLoop_para f line rest st hh hq hhr hu ho hb]
                  simp only [List.append_assoc, List.singleton_append, List.cons_append, List.nil_append]
                  rw [chunksRun_close_append,
                    chunksRun_cons none none _ _ (by simp [chunkStep_pChunk])]
                  exact ih _ none
              · rw [blockLoop_ol f line rest st item hh hq hhr hu ho]
                by_cases hst : st = some ListKind.ol
                · subst hst
                  rw [if_pos rfl]
                  simp only [List.nil_append, List.singleton_append]
                  rw [chunksRun_cons _ (some ListKind.ol) _ _ (by simp [chunkStep_liChunk])]
                  exact ih rest (some ListKind.ol)
                · rw [if_neg hst]
                  simp only [List.append_assoc, List.singleton_append, List.cons_append, List.nil_append]
                  rw [chunksRun_close_append,
                    chunksRun_cons none (some ListKind.ol) _ _
                      (by simp [chunkStep_olOpenChunk]),
                    chunksRun_cons _ (some ListKind.ol) _ _ (by simp [chunkStep_liChunk])]
                  exact ih rest (some ListKind.ol)
            · rw [blockLoop_ul f line rest st item hh hq hhr hu]
              by_cases hst : st = some ListKind.ul
              · subst hst
                rw [if_pos rfl]
                simp only [List.nil_append, List.singleton_append]
                rw [chunksRun_cons _ (some ListKind.ul) _ _ (by simp [chunkStep_liChunk])]
                exact ih rest (some ListKind.ul)
              · rw [if_neg hst]
                simp only [List.append_assoc, List.singleton_append, List.cons_append, List.nil_append]
                rw [chunksRun_close_append,
                  chunksRun_cons none (some ListKind.ul) _ _
                    (by simp [chunkStep_ulOpenChunk]),
                  chunksRun_cons _ (some ListKind.ul) _ _ (by simp [chunkStep_liChunk])]
                exact ih rest (some ListKind.ul)
        · rw [blockLoop_quote f line rest st q hh hq]
          simp only [List.append_assoc, List.singleton_append, List.cons_append, List.nil_append]
          rw [chunksRun_close_append,
            chunksRun_cons none none _ _ (by simp [chunkStep_blockquoteChunk])]
          exact ih _ none
      · have hb := headingMatch_bounds line lvl t hh
        rw [blockLoop_heading f line rest st lvl t hh]
        simp only [List.append_assoc, List.singleton_append, List.cons_append, List.nil_append]
        rw [chunksRun_close_append,
          chunksRun_cons none none _ _
            (by rw [chunkStep_headingChunk none lvl _ hb.1 hb.2]; simp)]
        exact ih rest none

/-- Claim C6: parser-state invariant.  Running the well-formedness scanner
over the emitted chunk sequence from the empty state accepts and ends with
no list open: whenever a list of kind K is open, its closing tag is emitted
before any chunk of a different block type (heading, blockquote, rule,
paragraph, or the opening of a list of the other kind) and before the end
of input, every list opening tag is matched by its closing tag, and list
item chunks occur only while a list is open. -/
theorem claimC6 (text : List Char) : chunksRun none (renderChunks text) = some none := by
  unfold renderChunks
  by_cases h : text = []
  · rw [if_pos h]
    rfl
  · rw [if_neg h]
    exact blockLoop_wf _ _ none

/-! ### The escaping chain -/

lemma replaceAllChar_append (c : Char) (rep xs ys : List Char) :
    replaceAllChar c rep (xs ++ ys) = replaceAllChar c rep xs ++ replaceAllChar c rep ys := by
  induction xs with
  | nil => rfl
  | cons d t ih => simp [replaceAllChar, ih, List.append_assoc]

lemma escapeHtml_cons (c : Char) (rest : List Char) :
    escapeHtml (c :: rest) = escChar c ++ escapeHtml rest := by
  have hexp : replaceAllChar '&' "&amp;".data (c :: rest) =
      (if c == '&' then "&amp;".data else [c]) ++ replaceAllChar '&' "&amp;".data rest := rfl
  unfold escapeHtml
  rw [hexp]
  by_cases h1 : c = '&'
  · subst h1
    rw [if_pos (by decide : (('&' == '&') = true))]
    rw [replaceAllChar_append, replaceAllChar_append]
    congr 1
  · rw [if_neg (by simp [h1]), List.singleton_append]
    have hexp2 : replaceAllChar '<' "&lt;".data (c :: replaceAllChar '&' "&amp;".data rest) =
        (if c == '<' then "&lt;".data else [c]) ++
          replaceAllChar '<' "&lt;".data (replaceAllChar '&' "&amp;".data rest) := rfl
    rw [hexp2]
    by_cases h2 : c = '<'
    · subst h2
      rw [if_pos (by decide : (('<' == '<') = true))]
      rw [replaceAllChar_append]
      congr 1
    · rw [if_neg (by simp [h2]), List.singleton_append]
      have hexp3 : replaceAllChar '>' "&gt;".data
          (c :: replaceAllChar '<' "&lt;".data (replaceAllChar '&' "&amp;".data rest)) =
          (if c == '>' then "&gt;".data else [c]) ++
            replaceAllChar '>' "&gt;".data
              (replaceAllChar '<' "&lt;".data (replaceAllChar '&' "&amp;".data rest)) := rfl
      rw [hexp3]
      by_cases h3 : c = '>'
      · subst h3
        rw [if_pos (by decide : (('>' == '>') = true))]
        congr 1
      · rw [if_neg (by simp [h3]), List.singleton_append]
        have he : escChar c = [c] := by simp [escChar, h1, h2, h3]
        rw [he, List.singleton_append]

lemma escapeHtml_eq (s : List Char) : escapeHtml s = escExpand s := by
  induction s with
  | nil => rfl
  | cons c rest ih => rw [escapeHtml_cons, ih]; rfl

lemma escExpand_all_no_angle (s : List Char) :
    (escExpand s).all (fun c => !(c == '<') && !(c == '>')) = true := by
  induction s with
  | nil => rfl
  | cons c rest ih =>
    have he : escExpand (c :: rest) = escChar c ++ escExpand rest := rfl
    rw [he, List.all_append, ih, Bool.and_true]
    by_cases h1 : c = '&'
    · subst h1; decide
    · by_cases h2 : c = '<'
      · subst h2; decide
      · by_cases h3 : c = '>'
        · subst h3; decide
        · have hc : escChar c = [c] := by simp [escChar, h1, h2, h3]
          rw [hc]
          simp [h2, h3]

lemma ampOk_escExpand (s : List Char) : ampOk (escExpand s) = true := by
  induction s with
  | nil => rfl
  | cons c rest ih =>
    by_cases h1 : c = '&'
    · subst h1
      have he : escExpand ('&' :: rest) = '&' :: 'a' :: 'm' :: 'p' :: ';' :: escExpand rest := rfl
      rw [he]
      simp [ampOk, startsWithL, ih]
    · by_cases h2 : c = '<'
      · subst h2
        have he : escExpand ('<' :: rest) = '&' :: 'l' :: 't' :: ';' :: escExpand rest := rfl
        rw [he]
        simp [ampOk, startsWithL, ih]
      · by_cases h3 : c = '>'
        · subst h3
          have he : escExpand ('>' :: rest) = '&' :: 'g' :: 't' :: ';' :: escExpand rest := rfl
          rw [he]
          simp [ampOk, startsWithL, ih]
        · have hc : escChar c = [c] := by simp [escChar, h1, h2, h3]
          have he : escExpand (c :: rest) = escChar c ++ escExpand rest := rfl
          rw [he, hc, List.singleton_append]
          simp [ampOk, h1, ih]

/-- Claim C7: escaping replaces `&`, then `<`, then `>`, in that literal
order, before any markup substitution (the inline transform factors through
the escaping chain), and consequently the escaped text of every block
contains no raw angle bracket at all while every ampersand in it begins one
of the three entities that escaping introduces; the only angle brackets of
the final output are those of the markup the renderer itself emits. -/
theorem claimC7 (line : List Char) :
    applyInlineFormatting line = inlineSubsts (escapeHtml line) ∧
    (escapeHtml line).all (fun c => !(c == '<') && !(c == '>')) = true ∧
    ampOk (escapeHtml line) = true := by
  refine ⟨rfl, ?_, ?_⟩
  · rw [escapeHtml_eq]
    exact escExpand_all_no_angle line
  · rw [escapeHtml_eq]
    exact ampOk_escExpand line

/-! ### Head-character facts about the line matchers -/

lemma heading_none_of_head (c : Char) (l : List Char) (h : (c == '#') = false) :
    headingMatch (c :: l) = none := by
  simp [headingMatch, List.takeWhile_cons, h]

lemma quote_none_of_head (c : Char) (l : List Char) (h : (c == '>') = false) :
    blockquoteMatch (c :: l) = none := by
  simp [blockquoteMatch, h]

lemma hrMatch_shape (line : List Char) (h : hrMatch line = true) :
    headingMatch line = none ∧ blockquoteMatch line = none := by
  cases line with
  | nil => simp [hrMatch] at h
  | cons c l =>
    have hc : isRuleChar c = true := by
      simp only [hrMatch, List.all_cons, Bool.and_eq_true] at h
      exact h.2.1
    have hc3 : (c = '-' ∨ c = '*') ∨ c = '_' := by
      simpa [isRuleChar] using hc
    rcases hc3 with (h3 | h3) | h3 <;> subst h3 <;>
      exact ⟨heading_none_of_head _ l (by decide), quote_none_of_head _ l (by decide)⟩

/-- Splitting a newline-free string yields that one line. -/
lemma splitLines_no_nl (text : List Char) (h : '\n' ∉ text) : splitLines text = [text] := by
  induction text with
  | nil => rfl
  | cons c rest ih =>
    simp only [List.mem_cons, not_or] at h
    have hc : (c == '\n') = false := by
      simp only [beq_eq_false_iff_ne, ne_eq]
      exact fun he => h.1 he.symm
    simp [splitLines, hc, ih h.2]

/-! ### Claim C5 -/

/-- Claim C5 (amended): for every blockquote block, the first consumed line
contributes its text after the `>` marker with one optional following
whitespace character stripped and no trimming, each subsequent consumed
line (those starting with `>`) contributes its text after the marker
trimmed of leading and trailing whitespace, and the per-line contents are
rejoined with a newline into a single blockquote element; the block ends at
the first line not starting with `>` and any open list is closed first. -/
theorem claimC5 (f : Nat) (r : List Char) (rest : List (List Char)) (st : Option ListKind) :
    blockLoop (f + 1) (('>' :: r) :: rest) st =
      closeListChunks st ++
        [blockquoteChunk (joinNL (applyInlineFormatting (stripOptWs r) ::
          (rest.takeWhile startsGtB).map (fun l => applyInlineFormatting (trimL l.tail))))] ++
        blockLoop f (rest.dropWhile startsGtB) none := by
  have hh : headingMatch ('>' :: r) = none := heading_none_of_head '>' r (by decide)
  have hq : blockquoteMatch ('>' :: r) = some (stripOptWs r) := by simp [blockquoteMatch]
  rw [blockLoop_quote f _ rest st _ hh hq, blockquoteCollect_eq]

/-! ### Claim C3 (amended) -/

/-- Claim C3 (amended): a paragraph block consumes its starting non-blank
line (one that matches none of the heading, blockquote, horizontal-rule or
list patterns) together with all immediately following lines that do not
satisfy the combined break test `paraBreak`; that test accepts blank lines
and lines matching the heading, blockquote, unordered or ordered item
patterns, but its horizontal-rule alternative is only a prefix test (three
leading rule characters suffice), so it is strictly wider than the
horizontal-rule block pattern.  The consumed lines are joined with newlines
into one paragraph element and any open list is closed first. -/
theorem claimC3 (f : Nat) (line : List Char) (rest : List (List Char)) (st : Option ListKind)
    (h1 : headingMatch line = none) (h2 : blockquoteMatch line = none)
    (h3 : hrMatch line = false) (h4 : ulMatch line = none) (h5 : olMatch line = none)
    (h6 : line.all isJsWs = false) :
    blockLoop (f + 1) (line :: rest) st =
      closeListChunks st ++
        [pChunk (applyInlineFormatting (joinNL (line ::
          rest.takeWhile (fun l => !paraBreak l))))] ++
        blockLoop f (rest.dropWhile (fun l => !paraBreak l)) none := by
  rw [blockLoop_para f line rest st h1 h2 h3 h4 h5 h6, paraCollect_eq]

/-- Witness for claim C3 at the concrete paragraph line `hello` with a
following line that begins with three rule characters but is not a rule. -/
theorem claimC3_witness :
    blockLoop 1 ["hello".data, "---abc".data] none =
      closeListChunks none ++
        [pChunk (applyInlineFormatting (joinNL ("hello".data ::
          ["---abc".data].takeWhile (fun l => !paraBreak l))))] ++
        blockLoop 0 (["---abc".data].dropWhile (fun l => !paraBreak l)) none :=
  claimC3 0 "hello".data ["---abc".data] none (by decide) (by decide) (by decide) (by decide)
    (by decide) (by decide)

/-! ### Claim C2 (amended) -/

lemma hr_step (f : Nat) (line : List Char) (rest : List (List Char)) (st : Option ListKind)
    (h : hrMatch line = true) :
    blockLoop (f + 1) (line :: rest) st =
      closeListChunks st ++ [hrChunk] ++ blockLoop f rest none := by
  have hs := hrMatch_shape line h
  exact blockLoop_hr f line rest st hs.1 hs.2 h

lemma hr_only_if (line : List Char) (hnl : '\n' ∉ line) (h : hrMatch line = false) :
    hrChunk ∉ renderChunks line := by
  unfold renderChunks
  by_cases he : line = []
  · rw [if_pos he]
    exact List.not_mem_nil _
  · rw [if_neg he, splitLines_no_nl line hnl]
    have hl : ([line] : List (List Char)).length = 0 + 1 := rfl
    rw [hl]
    rcases hh : headingMatch line with _ | ⟨lvl, t⟩
    · rcases hq : blockquoteMatch line with _ | q
      · rcases hu : ulMatch line with _ | item
        · rcases ho : olMatch line with _ | item
          · by_cases hb : line.all isJsWs = true
            · rw [blockLoop_blank 0 line [] none hh hq h hu ho hb, blockLoop_zero]
              simp [closeListChunks]
            · rw [Bool.not_eq_true] at hb
              rw [blockLoop_para 0 line [] none hh hq h hu ho hb, blockLoop_zero]
              simp only [closeListChunks, List.nil_append, List.append_nil,
                List.mem_singleton]
              rw [pChunk, List.append_assoc]
              exact (ne_append_of_cmpPrefix_false hrChunk _ _ (by decide)).symm
          · rw [blockLoop_ol 0 line [] none item hh hq h hu ho, blockLoop_zero]
            simp only [if_neg (by simp : ¬(none : Option ListKind) = some ListKind.ol),
              closeListChunks, List.nil_append, List.append_assoc, List.singleton_append,
              List.cons_append, List.mem_cons, List.mem_singleton, not_or]
            refine ⟨by decide, ?_, by decide⟩
            rw [liChunk, List.append_assoc]
            exact (ne_append_of_cmpPrefix_false hrChunk _ _ (by decide)).symm
        · rw [blockLoop_ul 0 line [] none item hh hq h hu, blockLoop_zero]
          simp only [if_neg (by simp : ¬(none : Option ListKind) = some ListKind.ul),
            closeListChunks, List.nil_append, List.append_assoc, List.singleton_append,
            List.cons_append, List.mem_cons, List.mem_singleton, not_or]
          refine ⟨by decide, ?_, by decide⟩
          rw [liChunk, List.append_assoc]
          exact (ne_append_of_cmpPrefix_false hrChunk _ _ (by decide)).symm
      · rw [blockLoop_quote 0 line [] none q hh hq]
        simp only [blockquoteCollect, blockLoop_zero, closeListChunks, List.nil_append,
          List.append_nil, List.mem_singleton]
        rw [blockquoteChunk, List.append_assoc]
        exact (ne_append_of_cmpPrefix_false hrChunk _ _ (by decide)).symm
    · have hb := headingMatch_bounds line lvl t hh
      rw [blockLoop_heading 0 line [] none lvl t hh, blockLoop_zero]
      simp only [closeListChunks, List.nil_append, List.append_nil, List.mem_singleton]
      have h3 : lvl = 1 ∨ lvl = 2 ∨ lvl = 3 := by omega
      rcases h3 with h3 | h3 | h3 <;> subst h3
      · rw [headingChunk, headingOpen_one, List.append_assoc]
        exact (ne_append_of_cmpPrefix_false hrChunk _ _ (by decide)).symm
      · rw [headingChunk, headingOpen_two, List.append_assoc]
        exact (ne_append_of_cmpPrefix_false hrChunk _ _ (by decide)).symm
      · rw [headingChunk, headingOpen_three, List.append_assoc]
        exact (ne_append_of_cmpPrefix_false hrChunk _ _ (by decide)).symm

/-- Claim C2 (amended): a line is rendered as a horizontal rule exactly when
it consists of three or more characters, each drawn from the rule class
(`-`, `*`, `_`, mixtures allowed), and nothing else, not even whitespace.
Such a line closes any open list and emits exactly one rule element
(first conjunct, for any position and parser state); a single-line input
whose line fails this test never produces a rule element (second
conjunct). -/
theorem claimC2 :
    (∀ (f : Nat) (line : List Char) (rest : List (List Char)) (st : Option ListKind),
      hrMatch line = true →
      blockLoop (f + 1) (line :: rest) st =
        closeListChunks st ++ [hrChunk] ++ blockLoop f rest none) ∧
    (∀ line : List Char, '\n' ∉ line → hrMatch line = false →
      hrChunk ∉ renderChunks line) :=
  ⟨fun f line rest st h => hr_step f line rest st h,
   fun line hnl h => hr_only_if line hnl h⟩

/-- Witness for claim C2: the mixed rule line `*-_` is rendered as a rule
and the plain line `x` yields no rule chunk. -/
theorem claimC2_witness :
    blockLoop 1 ["*-_".data] none =
      closeListChunks none ++ [hrChunk] ++ blockLoop 0 [] none ∧
    hrChunk ∉ renderChunks "x".data :=
  ⟨claimC2.1 0 "*-_".data [] none (by decide),
   claimC2.2 "x".data (by decide) (by decide)⟩

/-! ### Claim C8 -/

lemma takeWhile_hash_replicate (n : Nat) (w : Char) (rest : List Char)
    (hw : (w == '#') = false) :
    (List.replicate n '#' ++ w :: rest).takeWhile (· == '#') = List.replicate n '#' ∧
    (List.replicate n '#' ++ w :: rest).dropWhile (· == '#') = w :: rest := by
  induction n with
  | zero => simp [List.takeWhile_cons, List.dropWhile_cons, hw]
  | succ n ih =>
    simp only [List.replicate_succ, List.cons_append, List.takeWhile_cons,
      List.dropWhile_cons]
    simp [ih]

lemma headingMatch_replicate (n : Nat) (w : Char) (rest : List Char)
    (h1 : 1 ≤ n) (h2 : n ≤ 3) (hw : isJsWs w = true) :
    headingMatch (List.replicate n '#' ++ w :: rest) = some (n, rest.dropWhile isJsWs) := by
  have hwne : (w == '#') = false := by
    cases hb : (w == '#')
    · rfl
    · exfalso
      have hw' : w = '#' := by simpa using hb
      subst hw'
      exact absurd hw (by decide)
  have ht := takeWhile_hash_replicate n w rest hwne
  simp only [headingMatch, ht.1, ht.2, List.length_replicate]
  rw [if_pos ⟨h1, h2⟩]
  simp [hw, List.dropWhile_cons]

/-- Claim C8: a line of one to three `#` characters followed by a whitespace
character and content is rendered as a heading element whose level equals
the number of leading `#` characters, with the content taken after the
whole whitespace run (any open list is closed first); and the line
`#### Too Deep` is not a heading and falls through to a paragraph that
begins with the literal `####`. -/
theorem claimC8 :
    (∀ (f n : Nat) (w : Char) (rest : List Char) (more : List (List Char))
      (st : Option ListKind), 1 ≤ n → n ≤ 3 → isJsWs w = true →
      blockLoop (f + 1) ((List.replicate n '#' ++ w :: rest) :: more) st =
        closeListChunks st ++
          [headingChunk n (applyInlineFormatting (rest.dropWhile isJsWs))] ++
          blockLoop f more none) ∧
    renderSimpleMarkdown "#### Too Deep" =
      "<p class=\"my-2 leading-relaxed\">#### Too Deep</p>" := by
  constructor
  · intro f n w rest more st h1 h2 hw
    exact blockLoop_heading f _ more st n _ (headingMatch_replicate n w rest h1 h2 hw)
  · decide

/-- Witness for claim C8 at the concrete heading line `## Hi`. -/
theorem claimC8_witness :
    blockLoop 1 [List.replicate 2 '#' ++ ' ' :: "Hi".data] none =
      closeListChunks none ++
        [headingChunk 2 (applyInlineFormatting ("Hi".data.dropWhile isJsWs))] ++
        blockLoop 0 [] none :=
  claimC8.1 0 2 ' ' "Hi".data [] none (by decide) (by decide) (by decide)

/-! ### Claim C9 -/

lemma ulMatch_dash (x : List Char) : ulMatch ('-' :: ' ' :: x) = some (x.dropWhile isJsWs) := by
  have h1 : isJsWs '-' = false := by decide
  have h2 : isJsWs ' ' = true := by decide
  simp [ulMatch, List.dropWhile_cons, h1, h2]

lemma olMatch_one (y : List Char) :
    olMatch ('1' :: '.' :: ' ' :: y) = some (y.dropWhile isJsWs) := by
  have h1 : isJsWs '1' = false := by decide
  have h2 : isJsWs ' ' = true := by decide
  have h3 : Char.isDigit '1' = true := by decide
  have h4 : Char.isDigit '.' = false := by decide
  simp [olMatch, List.dropWhile_cons, List.takeWhile_cons, h1, h2, h3, h4]

lemma ol_line_matchers (y : List Char) :
    headingMatch ('1' :: '.' :: ' ' :: y) = none ∧
    blockquoteMatch ('1' :: '.' :: ' ' :: y) = none ∧
    hrMatch ('1' :: '.' :: ' ' :: y) = false ∧
    ulMatch ('1' :: '.' :: ' ' :: y) = none := by
  refine ⟨heading_none_of_head _ _ (by decide), quote_none_of_head _ _ (by decide), ?_, ?_⟩
  · simp [hrMatch, List.all_cons, show isRuleChar '1' = false from by decide]
  · have h1 : isJsWs '1' = false := by decide
    simp [ulMatch, List.dropWhile_cons, h1]

lemma ul_line_matchers (x : List Char) :
    headingMatch ('-' :: ' ' :: x) = none ∧
    blockquoteMatch ('-' :: ' ' :: x) = none ∧
    hrMatch ('-' :: ' ' :: x) = false := by
  refine ⟨heading_none_of_head _ _ (by decide), quote_none_of_head _ _ (by decide), ?_⟩
  simp [hrMatch, List.all_cons, show isRuleChar ' ' = false from by decide]

/-- Claim C9: when an unordered item line is immediately followed by an
ordered item line, the unordered list is closed before the ordered list is
opened: the unordered item is emitted (joining an already open unordered
list or opening a fresh one), then the closing unordered tag, then the
ordered opening tag with its item — never one merged list; and concretely
on the input of the specification. -/
theorem claimC9 :
    (∀ (f : Nat) (x y : List Char) (rest : List (List Char)) (st : Option ListKind),
      blockLoop (f + 2) (('-' :: ' ' :: x) :: ('1' :: '.' :: ' ' :: y) :: rest) st =
        (if st = some ListKind.ul then [] else closeListChunks st ++ [ulOpenChunk]) ++
          [liChunk (applyInlineFormatting (x.dropWhile isJsWs))] ++
          ["</ul>".data] ++
          [olOpenChunk, liChunk (applyInlineFormatting (y.dropWhile isJsWs))] ++
          blockLoop f rest (some ListKind.ol)) ∧
    renderSimpleMarkdown "- a\n1. b" =
      "<ul class=\"list-disc list-outside space-y-2 my-3 pl-6\"><li>a</li></ul><ol class=\"list-decimal list-outside space-y-2 my-3 pl-6\"><li>b</li></ol>" := by
  constructor
  · intro f x y rest st
    have hu := ul_line_matchers x
    have ho := ol_line_matchers y
    rw [blockLoop_ul (f + 1) _ _ st _ hu.1 hu.2.1 hu.2.2 (ulMatch_dash x)]
    rw [blockLoop_ol f _ rest (some ListKind.ul) _ ho.1 ho.2.1 ho.2.2.1 ho.2.2.2
      (olMatch_one y)]
    rw [if_neg (by simp : ¬(some ListKind.ul = some ListKind.ol))]
    simp [closeListChunks, List.append_assoc]
  · decide

/-! ### Claim C10: the scan always terminates within one iteration per line -/

lemma dropWhile_length_le {α : Type} (p : α → Bool) (l : List α) :
    (List.dropWhile p l).length ≤ l.length := by
  induction l with
  | nil => simp
  | cons a t ih =>
    rw [List.dropWhile_cons]
    by_cases h : p a = true
    · rw [if_pos h]
      exact Nat.le_trans ih (Nat.le_succ _)
    · rw [if_neg h]

lemma blockLoop_fuel (f : Nat) :
    ∀ (g : Nat) (lines : List (List Char)) (st : Option ListKind),
      lines.length ≤ f → lines.length ≤ g →
      blockLoop f lines st = blockLoop g lines st := by
  induction f with
  | zero =>
    intro g lines st h1 _
    have hl : lines = [] := List.length_eq_zero.mp (Nat.le_zero.mp h1)
    subst hl
    rw [blockLoop_nil, blockLoop_nil]
  | succ f ih =>
    intro g lines st h1 h2
    cases lines with
    | nil => rw [blockLoop_nil, blockLoop_nil]
    | cons line rest =>
      cases g with
      | zero => simp at h2
      | succ g =>
        have hr1 : rest.length ≤ f := by
          simp only [List.length_cons] at h1
          omega
        have hr2 : rest.length ≤ g := by
          simp only [List.length_cons] at h2
          omega
        rcases hh : headingMatch line with _ | ⟨lvl, t⟩
        · rcases hq : blockquoteMatch line with _ | q
          · by_cases hhr : hrMatch line = true
            · rw [blockLoop_hr f line rest st hh hq hhr,
                blockLoop_hr g line rest st hh hq hhr, ih g rest none hr1 hr2]
            · rw [Bool.not_eq_true] at hhr
              rcases hu : ulMatch line with _ | item
              · rcases ho : olMatch line with _ | item
                · by_cases hb : line.all isJsWs = true
                  · rw [blockLoop_blank f line rest st hh hq hhr hu ho hb,
                      blockLoop_blank g line rest st hh hq hhr hu ho hb,
                      ih g rest none hr1 hr2]
                  · rw [Bool.not_eq_true] at hb
                    rw [blockLoop_para f line rest st hh hq hhr hu ho hb,
                      blockLoop_para g line rest st hh hq hhr hu ho hb]
                    have hl2 : (paraCollect rest).2.length ≤ rest.length := by
                      rw [paraCollect_eq]
                      exact dropWhile_length_le _ rest
                    rw [ih g (paraCollect rest).2 none (Nat.le_trans hl2 hr1)
                      (Nat.le_trans hl2 hr2)]
                · rw [blockLoop_ol f line rest st item hh hq hhr hu ho,
                    blockLoop_ol g line rest st item hh hq hhr hu ho,
                    ih g rest (some ListKind.ol) hr1 hr2]
              · rw [blockLoop_ul f line rest st item hh hq hhr hu,
                  blockLoop_ul g line rest st item hh hq hhr hu,
                  ih g rest (some ListKind.ul) hr1 hr2]
          · rw [blockLoop_quote f line rest st q hh hq,
              blockLoop_quote g line rest st q hh hq]
            have hl2 : (blockquoteCollect rest).2.length ≤ rest.length := by
              rw [blockquoteCollect_eq]
              exact dropWhile_length_le _ rest
            rw [ih g (blockquoteCollect rest).2 none (Nat.le_trans hl2 hr1)
              (Nat.le_trans hl2 hr2)]
        · rw [blockLoop_heading f line rest st lvl t hh,
            blockLoop_heading g line rest st lvl t hh, ih g rest none hr1 hr2]

/-- Claim C10: the renderer is total.  The block scan consumes at least one
line per iteration, so any fuel bound at least the number of lines yields
the same result as the bound the renderer uses (the while loop terminates
within one iteration per line on every input, with no error case); and the
degenerate inputs evaluate: empty input gives empty output, as do
whitespace-only and newline-only inputs. -/
theorem claimC10 :
    (∀ (text : List Char) (f : Nat), (splitLines text).length ≤ f →
      blockLoop f (splitLines text) none =
        blockLoop (splitLines text).length (splitLines text) none) ∧
    renderSimpleMarkdown "" = "" ∧
    renderSimpleMarkdown " \t " = "" ∧
    renderSimpleMarkdown "\n\n" = "" := by
  refine ⟨?_, by decide, by decide, by decide⟩
  intro text f hf
  exact blockLoop_fuel f (splitLines text).length (splitLines text) none hf (Nat.le_refl _)

/-- Witness for claim C10 with surplus fuel on a two-line input. -/
theorem claimC10_witness :
    blockLoop 7 (splitLines "a\nb".data) none =
      blockLoop (splitLines "a\nb".data).length (splitLines "a\nb".data) none :=
  claimC10.1 "a\nb".data 7 (by decide)

/-! ### Claim C1 (amended): behaviour of a clean code span -/

lemma escExpand_id (s : List Char) (h : ∀ c ∈ s, c ≠ '&' ∧ c ≠ '<' ∧ c ≠ '>') :
    escExpand s = s := by
  induction s with
  | nil => rfl
  | cons c rest ih =>
    have hc := h c (List.mem_cons_self c rest)
    have he : escChar c = [c] := by simp [escChar, hc.1, hc.2.1, hc.2.2]
    have hx : escExpand (c :: rest) = escChar c ++ escExpand rest := rfl
    rw [hx, he, ih (fun d hd => h d (List.mem_cons_of_mem c hd)), List.singleton_append]

lemma escapeHtml_id (s : List Char) (h : ∀ c ∈ s, c ≠ '&' ∧ c ≠ '<' ∧ c ≠ '>') :
    escapeHtml s = s := by
  rw [escapeHtml_eq]
  exact escExpand_id s h

lemma replaceBoldF_id (f : Nat) :
    ∀ (s : List Char), (∀ c ∈ s, c ≠ '*' ∧ c ≠ '_') → replaceBoldF f s = s := by
  induction f with
  | zero => intro s _; rfl
  | succ f ih =>
    intro s h
    cases s with
    | nil => rfl
    | cons c rest =>
      have hc := h c (List.mem_cons_self c rest)
      have h1 : (c == '*') = false := by simp [hc.1]
      have h2 : (c == '_') = false := by simp [hc.2]
      simp [replaceBoldF, h1, h2, ih rest (fun d hd => h d (List.mem_cons_of_mem c hd))]

lemma replaceItalicF_id (f : Nat) :
    ∀ (s : List Char), (∀ c ∈ s, c ≠ '*' ∧ c ≠ '_') → replaceItalicF f s = s := by
  induction f with
  | zero => intro s _; rfl
  | succ f ih =>
    intro s h
    cases s with
    | nil => rfl
    | cons c rest =>
      have hc := h c (List.mem_cons_self c rest)
      have h1 : (c == '*') = false := by simp [hc.1]
      have h2 : (c == '_') = false := by simp [hc.2]
      simp [replaceItalicF, h1, h2, ih rest (fun d hd => h d (List.mem_cons_of_mem c hd))]

lemma replaceDelF_id (f : Nat) :
    ∀ (s : List Char), (∀ c ∈ s, c ≠ '~') → replaceDelF f s = s := by
  induction f with
  | zero => intro s _; rfl
  | succ f ih =>
    intro s h
    cases s with
    | nil => rfl
    | cons c rest =>
      have h1 : (c == '~') = false := by simp [h c (List.mem_cons_self c rest)]
      simp [replaceDelF, h1, ih rest (fun d hd => h d (List.mem_cons_of_mem c hd))]

lemma replaceLinkF_id (f : Nat) :
    ∀ (s : List Char), (∀ c ∈ s, c ≠ '[') → replaceLinkF f s = s := by
  induction f with
  | zero => intro s _; rfl
  | succ f ih =>
    intro s h
    cases s with
    | nil => rfl
    | cons c rest =>
      have h1 : (c == '[') = false := by simp [h c (List.mem_cons_self c rest)]
      simp [replaceLinkF, h1, ih rest (fun d hd => h d (List.mem_cons_of_mem c hd))]

lemma replaceCodeF_nil (f : Nat) : replaceCodeF f [] = [] := by
  cases f <;> rfl

lemma splitFirst_bt (s : List Char) (h : ∀ c ∈ s, c ≠ btChar) :
    splitFirst [btChar] (s ++ [btChar]) = some (s, []) := by
  induction s with
  | nil => decide
  | cons c rest ih =>
    have h1 : (btChar == c) = false := by
      simp only [beq_eq_false_iff_ne, ne_eq]
      exact fun he => h c (List.mem_cons_self c rest) he.symm
    simp only [List.cons_append, splitFirst, startsWithL, h1, Bool.false_and, if_false,
      Bool.false_eq_true]
    rw [show rest.append [btChar] = rest ++ [btChar] from rfl,
      ih (fun d hd => h d (List.mem_cons_of_mem c hd))]

lemma replaceCodeF_wrap (s : List Char) (hne : s ≠ []) (h : ∀ c ∈ s, c ≠ btChar) (f : Nat) :
    replaceCodeF (f + 1) (btChar :: (s ++ [btChar])) = codeTpl s := by
  simp only [replaceCodeF, beq_self_eq_true, if_true, splitFirst_bt s h, if_neg hne,
    replaceCodeF_nil, List.append_nil]

/-- Claim C1 (amended): a single-backtick span is wrapped in the monospace
element, but its content is not protected from the other inline rules (the
bold, italic and strikethrough substitutions run before the code rule and
the link substitution after it, as the counterexample shows); when the
content contains none of the characters those rules react to (and no
escaped character), the span is emitted as exactly the monospace element
holding the content verbatim. -/
theorem claimC1 (s : List Char) (hne : s ≠ [])
    (h : ∀ c ∈ s, c ≠ '&' ∧ c ≠ '<' ∧ c ≠ '>' ∧ c ≠ '*' ∧ c ≠ '_' ∧ c ≠ '~' ∧
      c ≠ btChar ∧ c ≠ '[') :
    applyInlineFormatting (btChar :: (s ++ [btChar])) = codeTpl s := by
  have hmem : ∀ c ∈ btChar :: (s ++ [btChar]), c = btChar ∨ c ∈ s := by
    intro c hc
    rcases List.mem_cons.mp hc with hx | hx
    · exact Or.inl hx
    · rcases List.mem_append.mp hx with hx | hx
      · exact Or.inr hx
      · exact Or.inl (by simpa using hx)
  have e1 : escapeHtml (btChar :: (s ++ [btChar])) = btChar :: (s ++ [btChar]) := by
    apply escapeHtml_id
    intro c hc
    rcases hmem c hc with hx | hx
    · subst hx
      exact ⟨by decide, by decide, by decide⟩
    · exact ⟨(h c hx).1, (h c hx).2.1, (h c hx).2.2.1⟩
  have e2 : ∀ g, replaceBoldF g (btChar :: (s ++ [btChar])) = btChar :: (s ++ [btChar]) := by
    intro g
    apply replaceBoldF_id
    intro c hc
    rcases hmem c hc with hx | hx
    · subst hx
      exact ⟨by decide, by decide⟩
    · exact ⟨(h c hx).2.2.2.1, (h c hx).2.2.2.2.1⟩
  have e3 : ∀ g, replaceItalicF g (btChar :: (s ++ [btChar])) = btChar :: (s ++ [btChar]) := by
    intro g
    apply replaceItalicF_id
    intro c hc
    rcases hmem c hc with hx | hx
    · subst hx
      exact ⟨by decide, by decide⟩
    · exact ⟨(h c hx).2.2.2.1, (h c hx).2.2.2.2.1⟩
  have e4 : ∀ g, replaceDelF g (btChar :: (s ++ [btChar])) = btChar :: (s ++ [btChar]) := by
    intro g
    apply replaceDelF_id
    intro c hc
    rcases hmem c hc with hx | hx
    · subst hx
      exact by decide
    · exact (h c hx).2.2.2.2.2.1
  have e5 : replaceCodeF (btChar :: (s ++ [btChar])).length (btChar :: (s ++ [btChar])) =
      codeTpl s := by
    have hl : (btChar :: (s ++ [btChar])).length = (s ++ [btChar]).length + 1 := rfl
    rw [hl]
    exact replaceCodeF_wrap s hne (fun c hc => (h c hc).2.2.2.2.2.2.1) _
  have e6 : ∀ g, replaceLinkF g (codeTpl s) = codeTpl s := by
    intro g
    apply replaceLinkF_id
    intro c hc
    have hco : ∀ c ∈ codeOpen, c ≠ '[' := by decide
    have hcc : ∀ c ∈ codeClose, c ≠ '[' := by decide
    rw [codeTpl] at hc
    rcases List.mem_append.mp hc with hx | hx
    · rcases List.mem_append.mp hx with hy | hy
      · exact hco c hy
      · exact (h c hy).2.2.2.2.2.2.2
    · exact hcc c hx
  show inlineSubsts (escapeHtml (btChar :: (s ++ [btChar]))) = codeTpl s
  rw [e1]
  simp only [inlineSubsts]
  rw [e2, e3, e4, e5, e6]

/-- Witness for claim C1 at the concrete span content `xyz`. -/
theorem claimC1_witness :
    applyInlineFormatting (btChar :: ("xyz".data ++ [btChar])) = codeTpl "xyz".data :=
  claimC1 "xyz".data (by decide) (by decide)

end MarkdownRenderer
